import Mathlib

/-!
# Verification of the stock-analysis-system core

Shallow embedding of the repository's indicator computation engine
(`src/strategy/data_analysis/indicators.py`, class `IndicatorEngine`) and of the
position risk-management logic (`src/strategy/vnpy_strategies/base_template.py`,
class `BaseStrategy`), together with proofs of the specified properties.

Modelling conventions:
* pandas float columns are modelled as `List (Option ℝ)`: a cell is `none`
  exactly when pandas holds `NaN` there (warm-up positions of a rolling window,
  results of `0/0`, shifted-out positions), and `some x` when pandas holds the
  (idealised, exact-real) float `x`.
* pandas elementwise arithmetic propagates `NaN`; `Series.where(cond, other)`
  treats a `NaN` condition as `False`; `DataFrame.max(axis=1)` skips `NaN`
  (`skipna=True` default); `rolling(window=L)` uses `min_periods = L`;
  `rolling(...).std()` uses `ddof = 1` and yields `NaN` when the window holds
  fewer than two observations; `x / 0` is `±inf` for `x ≠ 0` and `NaN` for
  `x = 0` (the single place an `inf` arises in the engine, `rs = gain/loss`
  with `loss = 0`, is modelled by its end effect on the RSI formula).
* The risk-management state and position sizing use exact rationals `ℚ`;
  Python `int()` truncation toward zero is modelled by `pyInt`.
-/

/-- A pandas cell: `none` models `NaN`. -/
abbrev Val := Option ℝ

/-- A pandas float column. -/
abbrev Col := List Val

/-- Cell of a column at an index; out-of-range reads give `NaN` (this is how
`shift` vacates positions; pandas columns themselves are only read in range). -/
def cell (xs : Col) (i : ℕ) : Val := xs.getD i none

/-- Elementwise subtraction, `NaN`-propagating. -/
def osub : Val → Val → Val
  | some a, some b => some (a - b)
  | _, _ => none

/-- Elementwise addition, `NaN`-propagating. -/
def oadd : Val → Val → Val
  | some a, some b => some (a + b)
  | _, _ => none

/-- Elementwise absolute value, `NaN`-propagating (`np.abs`). -/
def oabs : Val → Val
  | some a => some |a|
  | none => none

/-- Binary maximum as computed by `DataFrame.max(axis=1)`: `NaN` entries are
skipped (`skipna=True`), the result is `NaN` only if all entries are. -/
def omax : Val → Val → Val
  | some a, some b => some (max a b)
  | some a, none => some a
  | none, some b => some b
  | none, none => none

/-- Contents of a window if every cell is defined, otherwise `none`
(a rolling aggregate over a window containing `NaN` is `NaN`). -/
def oseq : Col → Option (List ℝ)
  | [] => some []
  | none :: _ => none
  | some a :: xs => (oseq xs).map (a :: ·)

/-- The window of length `L` ending at index `i`: positions `i+1-L … i`. -/
def win {α : Type} (L i : ℕ) (xs : List α) : List α := (xs.take (i + 1)).drop (i + 1 - L)

/-- `Series.rolling(window=L).mean()`: defined from index `L-1` on
(`min_periods` defaults to the window size), arithmetic mean of the last `L`
cells, `NaN` if any of them is `NaN`.  (pandas rejects `window = 0`; all
claims about this function assume `1 ≤ L`.) -/
noncomputable def rollingMean (L : ℕ) (xs : Col) : Col :=
  (List.range xs.length).map fun i =>
    if L ≤ i + 1 then (oseq (win L i xs)).map (fun w => w.sum / (L : ℝ)) else none

/-- `Series.rolling(window=L).std()`: sample standard deviation of the window,
`ddof = 1` (denominator `L - 1`), `NaN` while the window is not full and also
when the window holds fewer than two observations (`ddof ≥` sample size). -/
noncomputable def rollingStd (L : ℕ) (xs : Col) : Col :=
  (List.range xs.length).map fun i =>
    if L ≤ i + 1 then
      (oseq (win L i xs)).bind fun w =>
        if 2 ≤ L then
          some (Real.sqrt (((w.map fun x => (x - w.sum / (L : ℝ)) ^ 2).sum) / ((L : ℝ) - 1)))
        else none
    else none

/-- `Series.diff()`: first difference, `NaN` at index 0. -/
noncomputable def diffCol (xs : Col) : Col :=
  (List.range xs.length).map fun i =>
    if i = 0 then none else osub (cell xs i) (cell xs (i - 1))

/-- `Series.shift()`: shift forward by one, `NaN` at index 0. -/
noncomputable def shiftCol (xs : Col) : Col :=
  (List.range xs.length).map fun i => if i = 0 then none else cell xs (i - 1)

/-- One cell of `delta.where(delta > 0, 0)`: keep `delta` where positive, else
`0`.  A `NaN` condition counts as `False`, so a `NaN` delta becomes `0`. -/
noncomputable def gainCell : Val → Val
  | some a => if 0 < a then some a else some 0
  | none => some 0

/-- One cell of `(-delta.where(delta < 0, 0))`: the magnitude of a negative
delta, else `0`; a `NaN` delta becomes `0`. -/
noncomputable def lossCell : Val → Val
  | some a => if a < 0 then some (-a) else some 0
  | none => some 0

/-- Elementwise map over a column. -/
def mapCol (f : Val → Val) (xs : Col) : Col := xs.map f

/-- Elementwise combination of two index-aligned columns (the result keeps the
first column's length, as a pandas assignment into the frame does). -/
def zip2 (g : Val → Val → Val) (xs ys : Col) : Col :=
  (List.range xs.length).map fun i => g (cell xs i) (cell ys i)

/-- One cell of `100 - (100 / (1 + gain/loss))` under float semantics:
with `loss = 0` and `gain ≠ 0` the quotient is `±inf` and the formula
collapses to `100`; with `loss = 0 = gain` it is `0/0 = NaN`; otherwise the
exact formula.  `NaN` operands propagate. -/
noncomputable def rsiCell : Val → Val → Val
  | some g, some l =>
      if l = 0 then (if g = 0 then none else some 100)
      else some (100 - 100 / (1 + g / l))
  | _, _ => none

/-- The rolling average gain of `add_rsi`:
`(delta.where(delta > 0, 0)).rolling(window=L).mean()`. -/
noncomputable def avgGainCol (L : ℕ) (closes : Col) : Col :=
  rollingMean L (mapCol gainCell (diffCol closes))

/-- The rolling average loss of `add_rsi`:
`(-delta.where(delta < 0, 0)).rolling(window=L).mean()`. -/
noncomputable def avgLossCol (L : ℕ) (closes : Col) : Col :=
  rollingMean L (mapCol lossCell (diffCol closes))

/-- The `rsi{L}` column written by `IndicatorEngine.add_rsi`. -/
noncomputable def rsiCol (L : ℕ) (closes : Col) : Col :=
  zip2 rsiCell (avgGainCol L closes) (avgLossCol L closes)

/-- The `boll_mid` column of `IndicatorEngine.add_boll`: rolling mean. -/
noncomputable def bollMid (L : ℕ) (closes : Col) : Col := rollingMean L closes

/-- The `boll_std` column of `IndicatorEngine.add_boll`: rolling std. -/
noncomputable def bollStd (L : ℕ) (closes : Col) : Col := rollingStd L closes

/-- Elementwise scalar multiple (`std * df['boll_std']`), `NaN`-propagating. -/
def kmul (k : ℝ) : Val → Val := Option.map (k * ·)

/-- The `boll_up` column: `boll_mid + std * boll_std`. -/
noncomputable def bollUp (L k : ℕ) (closes : Col) : Col :=
  zip2 oadd (bollMid L closes) (mapCol (kmul k) (bollStd L closes))

/-- The `boll_down` column: `boll_mid - std * boll_std`. -/
noncomputable def bollDown (L k : ℕ) (closes : Col) : Col :=
  zip2 osub (bollMid L closes) (mapCol (kmul k) (bollStd L closes))

/-- The true-range column of `IndicatorEngine.add_atr`: rowwise maximum
(`np.max(ranges, axis=1)`, which skips `NaN`) of `high - low`,
`|high - close.shift()|` and `|low - close.shift()|`. -/
noncomputable def trueRangeCol (high low close : Col) : Col :=
  (List.range high.length).map fun i =>
    omax (omax (cell (zip2 osub high low) i)
               (cell (mapCol oabs (zip2 osub high (shiftCol close))) i))
         (cell (mapCol oabs (zip2 osub low (shiftCol close))) i)

/-- The `atr{p}` column: `true_range.rolling(period).mean()`. -/
noncomputable def atrCol (p : ℕ) (high low close : Col) : Col :=
  rollingMean p (trueRangeCol high low close)

/-- One cell of the `cross_signal` column: `1` where
`ma_diff > 0 ∧ ma_diff.shift(1) ≤ 0` (golden cross), `-1` where
`ma_diff < 0 ∧ ma_diff.shift(1) ≥ 0` (death cross), else the `0` the column
was initialised with.  Comparisons against `NaN` are `False`. -/
noncomputable def crossCell (cur prev : Val) : ℝ :=
  match cur, prev with
  | some c, some p =>
      if 0 < c ∧ p ≤ 0 then 1 else if c < 0 ∧ 0 ≤ p then -1 else 0
  | _, _ => 0

/-- The `cross_signal` column computed from a `ma_diff` column. -/
noncomputable def crossOfDiff (d : Col) : Col :=
  (List.range d.length).map fun i =>
    some (crossCell (cell d i) (if i = 0 then none else cell d (i - 1)))

/-- `detect_ma_cross` on two aligned indicator series `A`, `B`:
`ma_diff = A - B`, then the golden/death classification. -/
noncomputable def crossSignalCol (A B : Col) : Col :=
  crossOfDiff (zip2 osub A B)

/-- `Series.ewm(adjust=False)` recursion with smoothing factor `α`, carrying
the running mean as state: `NaN` until the first observation seeds the mean,
`y = α·x + (1-α)·y'` afterwards.  At a `NaN` input the previous mean is
emitted unchanged (pandas additionally reweights across `NaN` gaps with
`ignore_na=False`; no claim depends on values after an interior `NaN`). -/
noncomputable def ewmRec (a : ℝ) : Option ℝ → Col → Col
  | _, [] => []
  | none, none :: xs => none :: ewmRec a none xs
  | none, some x :: xs => some x :: ewmRec a (some x) xs
  | some m, none :: xs => some m :: ewmRec a (some m) xs
  | some m, some x :: xs =>
      some (a * x + (1 - a) * m) :: ewmRec a (some (a * x + (1 - a) * m)) xs

/-- `Series.ewm(span=L, adjust=False).mean()`: `α = 2/(L+1)`. -/
noncomputable def ewmSpan (L : ℕ) (xs : Col) : Col :=
  ewmRec (2 / ((L : ℝ) + 1)) none xs

/-- `Series.ewm(alpha=α, adjust=False).mean()`. -/
noncomputable def ewmAlpha (a : ℝ) (xs : Col) : Col := ewmRec a none xs

/-- `Series.rolling(window=L, min_periods=L).min()`. -/
noncomputable def rollingMin (L : ℕ) (xs : Col) : Col :=
  (List.range xs.length).map fun i =>
    if L ≤ i + 1 then
      (oseq (win L i xs)).bind fun w =>
        match w with
        | [] => none
        | x :: t => some (t.foldl min x)
    else none

/-- `Series.rolling(window=L, min_periods=L).max()`. -/
noncomputable def rollingMax (L : ℕ) (xs : Col) : Col :=
  (List.range xs.length).map fun i =>
    if L ≤ i + 1 then
      (oseq (win L i xs)).bind fun w =>
        match w with
        | [] => none
        | x :: t => some (t.foldl max x)
    else none

/-- One cell of the KDJ `rsv = (close - low_n)/(high_n - low_n) * 100`:
`NaN` when a component is `NaN` or the range is degenerate (`0/0`; with sane
OHLC data `high_n = low_n` forces `close = low_n`). -/
noncomputable def rsvCell : Val → Val → Val → Val
  | some c, some lo, some hi =>
      if hi - lo = 0 then none else some ((c - lo) / (hi - lo) * 100)
  | _, _, _ => none

/-- A dataframe: association list from column name to column.  `df[name] = col`
overwrites in place or appends a new column. -/
abbrev DF := List (String × Col)

/-- Column lookup (`df[name]`; `none` models the `KeyError` case). -/
def getCol : DF → String → Option Col
  | [], _ => none
  | (k, v) :: rest, n => if k = n then some v else getCol rest n

/-- Column read as used inside the engine; every claim evaluates frames that
do contain the column (a missing column raises `KeyError` in pandas). -/
def col (df : DF) (name : String) : Col := (getCol df name).getD []

/-- `df[name] = c`: overwrite the first binding of `name`, else append. -/
def setCol : DF → String → Col → DF
  | [], n, c => [(n, c)]
  | (k, v) :: rest, n, c =>
      if k = n then (k, c) :: rest else (k, v) :: setCol rest n c

/-- `IndicatorEngine.add_ma`: a `ma{period}` column per period. -/
noncomputable def add_ma (df : DF) (periods : List ℕ) : DF :=
  periods.foldl
    (fun d p => setCol d ("ma" ++ toString p) (rollingMean p (col d "close"))) df

/-- `IndicatorEngine.add_ema`: an `ema{period}` column per period. -/
noncomputable def add_ema (df : DF) (periods : List ℕ) : DF :=
  periods.foldl
    (fun d p => setCol d ("ema" ++ toString p) (ewmSpan p (col d "close"))) df

/-- `IndicatorEngine.add_macd`. -/
noncomputable def add_macd (df : DF) (fast slow signal : ℕ) : DF :=
  let ema_fast := ewmSpan fast (col df "close")
  let ema_slow := ewmSpan slow (col df "close")
  let d1 := setCol df "macd_dif" (zip2 osub ema_fast ema_slow)
  let d2 := setCol d1 "macd_dea" (ewmSpan signal (col d1 "macd_dif"))
  setCol d2 "macd_hist"
    (mapCol (kmul 2) (zip2 osub (col d2 "macd_dif") (col d2 "macd_dea")))

/-- `IndicatorEngine.add_kdj`. -/
noncomputable def add_kdj (df : DF) (n m1 m2 : ℕ) : DF :=
  let low_list := rollingMin n (col df "low")
  let high_list := rollingMax n (col df "high")
  let rsv := (List.range (col df "close").length).map fun i =>
    rsvCell (cell (col df "close") i) (cell low_list i) (cell high_list i)
  let d1 := setCol df "kdj_k" (ewmAlpha (1 / (m1 : ℝ)) rsv)
  let d2 := setCol d1 "kdj_d" (ewmAlpha (1 / (m2 : ℝ)) (col d1 "kdj_k"))
  setCol d2 "kdj_j"
    (zip2 osub (mapCol (kmul 3) (col d2 "kdj_k")) (mapCol (kmul 2) (col d2 "kdj_d")))

/-- `IndicatorEngine.add_rsi`: a `rsi{period}` column per period. -/
noncomputable def add_rsi (df : DF) (periods : List ℕ) : DF :=
  periods.foldl
    (fun d p => setCol d ("rsi" ++ toString p) (rsiCol p (col d "close"))) df

/-- `IndicatorEngine.add_boll`: the four Bollinger columns. -/
noncomputable def add_boll (df : DF) (period std : ℕ) : DF :=
  let d1 := setCol df "boll_mid" (rollingMean period (col df "close"))
  let d2 := setCol d1 "boll_std" (rollingStd period (col d1 "close"))
  let d3 := setCol d2 "boll_up"
    (zip2 oadd (col d2 "boll_mid") (mapCol (kmul std) (col d2 "boll_std")))
  setCol d3 "boll_down"
    (zip2 osub (col d3 "boll_mid") (mapCol (kmul std) (col d3 "boll_std")))

/-- `IndicatorEngine.add_atr`: the `atr{period}` column. -/
noncomputable def add_atr (df : DF) (period : ℕ) : DF :=
  setCol df ("atr" ++ toString period)
    (atrCol period (col df "high") (col df "low") (col df "close"))

/-- `IndicatorEngine.detect_ma_cross`: the `ma_diff` and `cross_signal`
columns from `ma{fast}` and `ma{slow}`. -/
noncomputable def detect_ma_cross (df : DF) (fast slow : ℕ) : DF :=
  let d1 := setCol df "ma_diff"
    (zip2 osub (col df ("ma" ++ toString fast)) (col df ("ma" ++ toString slow)))
  setCol d1 "cross_signal" (crossOfDiff (col d1 "ma_diff"))

/-- `IndicatorEngine.calculate_all` with the engine's default parameters. -/
noncomputable def calculate_all (df : DF) : DF :=
  add_atr
    (add_boll
      (add_rsi
        (add_kdj
          (add_macd
            (add_ema (add_ma df [5, 10, 20, 60]) [12, 26])
            12 26 9)
          9 3 3)
        [6, 12, 24])
      20 2)
    14

/-! ## Position risk management (`BaseStrategy`, base_template.py)

Prices and percentages are exact rationals; `pos` is the signed position size
(`pos > 0` long, `pos < 0` short, `0` flat).  The strategy host owns order
execution: `risk_management` only returns the decision the source expresses by
calling `self.sell` / `self.cover` for the full `abs(pos)` at `bar.close_price`
(the branch reason tags `"stop_loss"` / `"trailing_take_profit"` name the two
exit branches the source logs before selling). -/

/-- The `parameters` of `BaseStrategy`. -/
structure RiskParams where
  risk_percent : ℚ
  max_position : ℤ
  stop_loss_pct : ℚ
  take_profit_pct : ℚ
  deriving DecidableEq

/-- The mutable `variables` of `BaseStrategy` plus the engine-owned `pos`. -/
structure StratState where
  pos : ℤ
  current_price : ℚ
  entry_price : ℚ
  highest_price : ℚ
  lowest_price : ℚ
  deriving DecidableEq

/-- One OHLC bar as consumed by the strategy callbacks. -/
structure BarData where
  open_price : ℚ
  high_price : ℚ
  low_price : ℚ
  close_price : ℚ
  deriving DecidableEq

/-- The decision `risk_management` communicates to the host. -/
inductive RiskDecision where
  | hold : RiskDecision
  | sell (reason : String) (price : ℚ) (volume : ℤ) : RiskDecision
  | cover (reason : String) (price : ℚ) (volume : ℤ) : RiskDecision
  deriving DecidableEq

/-- `BaseStrategy.risk_management`. -/
def risk_management (p : RiskParams) (s : StratState) (bar : BarData) : RiskDecision :=
  if s.pos = 0 then .hold
  else if 0 < s.pos then
    let loss_pct := (s.entry_price - bar.close_price) / s.entry_price * 100
    if loss_pct ≥ p.stop_loss_pct then .sell "stop_loss" bar.close_price |s.pos|
    else
      let drawdown_pct := (s.highest_price - bar.close_price) / s.highest_price * 100
      if drawdown_pct ≥ p.take_profit_pct then
        .sell "trailing_take_profit" bar.close_price |s.pos|
      else .hold
  else
    let loss_pct := (bar.close_price - s.entry_price) / s.entry_price * 100
    if loss_pct ≥ p.stop_loss_pct then .cover "stop_loss" bar.close_price |s.pos|
    else .hold

/-- The state update performed at the top of `BaseStrategy.on_bar` (the
subsequent `risk_management`/`trading_logic` calls do not write these
variables; order placement is external). -/
def on_bar_update (s : StratState) (bar : BarData) : StratState :=
  let s1 := { s with current_price := bar.close_price }
  if 0 < s.pos then { s1 with highest_price := max s1.highest_price bar.high_price }
  else if s.pos < 0 then { s1 with lowest_price := min s1.lowest_price bar.low_price }
  else s1

/-- Fill offset of a trade callback. -/
inductive TradeOffset where
  | opening : TradeOffset
  | closing : TradeOffset
  deriving DecidableEq

/-- The state update of `BaseStrategy.on_trade`: an opening fill seeds
`entry_price` and both extremes with the fill price; any other fill clears
`entry_price`. -/
def on_trade (s : StratState) (offset : TradeOffset) (price : ℚ) : StratState :=
  match offset with
  | .opening => { s with entry_price := price, highest_price := price, lowest_price := price }
  | .closing => { s with entry_price := 0 }

/-- Processing a sequence of bars through `on_bar`'s state update. -/
def processBars (s : StratState) (bars : List BarData) : StratState :=
  bars.foldl on_bar_update s

/-- Python `int()` applied to a float/rational: truncation toward zero. -/
def pyInt (q : ℚ) : ℤ := if 0 ≤ q then ⌊q⌋ else ⌈q⌉

/-- `BaseStrategy.calculate_position`.  A zero `stop_loss_amount` makes the
Python division raise `ZeroDivisionError`, modelled as `Except.error ()`. -/
def calculate_position (p : RiskParams) (capital price : ℚ) : Except Unit ℤ :=
  let risk_amount := capital * p.risk_percent / 100
  let stop_loss_amount := price * p.stop_loss_pct / 100
  if stop_loss_amount = 0 then Except.error ()
  else Except.ok (min (pyInt (risk_amount / stop_loss_amount)) p.max_position)

lemma on_bar_update_pos (s : StratState) (b : BarData) :
    (on_bar_update s b).pos = s.pos := by
  unfold on_bar_update
  split_ifs <;> rfl

lemma on_bar_update_highest (s : StratState) (b : BarData) (h : 0 < s.pos) :
    (on_bar_update s b).highest_price = max s.highest_price b.high_price := by
  unfold on_bar_update
  rw [if_pos h]

lemma on_bar_update_lowest (s : StratState) (b : BarData) (h : s.pos < 0) :
    (on_bar_update s b).lowest_price = min s.lowest_price b.low_price := by
  unfold on_bar_update
  rw [if_neg (by omega : ¬ 0 < s.pos), if_pos h]

lemma processBars_highest_mono (bars : List BarData) :
    ∀ s : StratState, 0 < s.pos →
      s.highest_price ≤ (processBars s bars).highest_price := by
  induction bars with
  | nil => intro s _; exact le_refl _
  | cons b bs ih =>
      intro s hs
      calc s.highest_price ≤ (on_bar_update s b).highest_price := by
              rw [on_bar_update_highest s b hs]; exact le_max_left _ _
        _ ≤ (processBars (on_bar_update s b) bs).highest_price :=
              ih _ (by rw [on_bar_update_pos]; exact hs)

lemma processBars_lowest_anti (bars : List BarData) :
    ∀ s : StratState, s.pos < 0 →
      (processBars s bars).lowest_price ≤ s.lowest_price := by
  induction bars with
  | nil => intro s _; exact le_refl _
  | cons b bs ih =>
      intro s hs
      calc (processBars (on_bar_update s b) bs).lowest_price
          ≤ (on_bar_update s b).lowest_price :=
            ih _ (by rw [on_bar_update_pos]; exact hs)
        _ ≤ s.lowest_price := by
            rw [on_bar_update_lowest s b hs]; exact min_le_left _ _

/-- C3: while a LONG position is open, on any bar where the drawdown from the
tracked peak reaches `take_profit_pct` and the stop-loss condition does not
hold, `risk_management` emits a close-all decision with reason
`"trailing_take_profit"` (no hypothesis relates `bar.close_price` to
`entry_price`, so this holds in particular while still above entry). -/
theorem trailing_take_profit_fires (p : RiskParams) (s : StratState) (bar : BarData)
    (hpos : 0 < s.pos)
    (hsl : (s.entry_price - bar.close_price) / s.entry_price * 100 < p.stop_loss_pct)
    (htp : (s.highest_price - bar.close_price) / s.highest_price * 100 ≥ p.take_profit_pct) :
    risk_management p s bar = .sell "trailing_take_profit" bar.close_price |s.pos| := by
  unfold risk_management
  rw [if_neg (by omega : ¬ s.pos = 0), if_pos hpos, if_neg (not_le.mpr hsl), if_pos htp]

/-- Witness for C3: the spec scenario — entry 100, peak 120, bar close 107,
trailing threshold 10%: drawdown 10.83% forces the exit although the close is
still above entry. -/
theorem trailing_take_profit_fires_witness :
    ((100 - 107 : ℚ) / 100 * 100 < 5) ∧
    ((120 - 107 : ℚ) / 120 * 100 ≥ 10) ∧
    (100 : ℚ) < 107 ∧
    risk_management ⟨2, 100, 5, 10⟩ ⟨5, 107, 100, 120, 100⟩ ⟨107, 108, 106, 107⟩ =
      .sell "trailing_take_profit" 107 5 := by
  refine ⟨by norm_num, by norm_num, by norm_num, ?_⟩
  have h := trailing_take_profit_fires ⟨2, 100, 5, 10⟩ ⟨5, 107, 100, 120, 100⟩
    ⟨107, 108, 106, 107⟩ (by decide) (by norm_num) (by norm_num)
  simpa using h

/-- C4: while a LONG position is open, a bar whose loss from entry reaches
`stop_loss_pct` always produces the close-all decision with reason
`"stop_loss"` — the stop-loss branch is evaluated first, so this holds with no
assumption on the trailing take-profit condition (which may also trigger). -/
theorem stop_loss_priority (p : RiskParams) (s : StratState) (bar : BarData)
    (hpos : 0 < s.pos)
    (hsl : (s.entry_price - bar.close_price) / s.entry_price * 100 ≥ p.stop_loss_pct) :
    risk_management p s bar = .sell "stop_loss" bar.close_price |s.pos| := by
  unfold risk_management
  rw [if_neg (by omega : ¬ s.pos = 0), if_pos hpos, if_pos hsl]

/-- Witness for C4: entry 100, close 94, stop 5% (spec scenario), with the
peak at 120 so that the trailing condition (drawdown 21.67% ≥ 10%) triggers on
the same bar; the decision is still the stop-loss exit. -/
theorem stop_loss_priority_witness :
    ((100 - 94 : ℚ) / 100 * 100 ≥ 5) ∧
    ((120 - 94 : ℚ) / 120 * 100 ≥ 10) ∧
    risk_management ⟨2, 100, 5, 10⟩ ⟨5, 94, 100, 120, 100⟩ ⟨94, 95, 93, 94⟩ =
      .sell "stop_loss" 94 5 := by
  refine ⟨by norm_num, by norm_num, ?_⟩
  have h := stop_loss_priority ⟨2, 100, 5, 10⟩ ⟨5, 94, 100, 120, 100⟩
    ⟨94, 95, 93, 94⟩ (by decide) (by norm_num)
  simpa using h

/-- C6: at an opening fill both extremes (and the entry price) are seeded with
the fill price, and over any sequence of processed bars
`highest_price_since_entry` never decreases while the position is LONG and
`lowest_price_since_entry` never increases while it is SHORT. -/
theorem extremes_monotonic (s : StratState) (price : ℚ) (bars : List BarData) :
    ((on_trade s .opening price).entry_price = price ∧
     (on_trade s .opening price).highest_price = price ∧
     (on_trade s .opening price).lowest_price = price) ∧
    (0 < s.pos → s.highest_price ≤ (processBars s bars).highest_price) ∧
    (s.pos < 0 → (processBars s bars).lowest_price ≤ s.lowest_price) :=
  ⟨⟨rfl, rfl, rfl⟩, processBars_highest_mono bars s, processBars_lowest_anti bars s⟩

/-- Witness for C6: a LONG position opened at 100 processing two bars. -/
theorem extremes_monotonic_witness :
    (0 : ℤ) < 3 ∧
    (100 : ℚ) ≤ (processBars ⟨3, 100, 100, 100, 100⟩
      [⟨101, 105, 99, 104⟩, ⟨104, 110, 103, 108⟩]).highest_price := by
  refine ⟨by decide, ?_⟩
  exact (extremes_monotonic ⟨3, 100, 100, 100, 100⟩ 100
    [⟨101, 105, 99, 104⟩, ⟨104, 110, 103, 108⟩]).2.1 (by decide)

/-- C7 counterexample: at `price = -10 < 0` (a non-positive price, which the
claim says must fail with an invalid-input condition) `calculate_position`
silently returns the size `-40`: with capital 1000, risk 2%, stop 5%,
`risk_amount = 20`, `stop_loss_amount = -0.5`, `int(20 / -0.5) = -40`,
`min(-40, 100) = -40`. -/
theorem calculate_position_negative_price_counterexample :
    (-10 : ℚ) < 0 ∧
    calculate_position ⟨2, 100, 5, 10⟩ 1000 (-10) = Except.ok (-40) := by
  constructor
  · norm_num
  · unfold calculate_position
    norm_num [pyInt]
    exact_mod_cast Int.ceil_intCast (α := ℚ) (-40)

/-- C7 (amended): `calculate_position` fails (Python `ZeroDivisionError`,
surfaced to the caller) exactly when `price = 0` or `stop_loss_pct = 0`; for
negative `price` or `stop_loss_pct` it silently returns a (possibly negative)
size; for positive `price` and `stop_loss_pct` (and non-negative
`capital · risk_percent`) it is the pure function
`min ⌊(capital·risk_percent/100) / (price·stop_loss_pct/100)⌋ max_position`. -/
theorem calculate_position_spec (p : RiskParams) (capital price : ℚ) :
    (calculate_position p capital price = Except.error () ↔
      (price = 0 ∨ p.stop_loss_pct = 0)) ∧
    (0 < price → 0 < p.stop_loss_pct → 0 ≤ capital * p.risk_percent →
      calculate_position p capital price =
        Except.ok (min ⌊(capital * p.risk_percent / 100) /
          (price * p.stop_loss_pct / 100)⌋ p.max_position)) := by
  constructor
  · unfold calculate_position
    by_cases h : price * p.stop_loss_pct / 100 = 0
    · rw [if_pos h]
      simp only [true_iff]
      have h' : price * p.stop_loss_pct = 0 := by
        field_simp at h
        exact h
      exact mul_eq_zero.mp h'
    · rw [if_neg h]
      constructor
      · intro he
        exact absurd he (by simp)
      · intro hz
        exact absurd (by rcases hz with hz | hz <;> rw [hz] <;> ring) h
  · intro hp hs hc
    unfold calculate_position
    have hd : (0 : ℚ) < price * p.stop_loss_pct / 100 := by positivity
    rw [if_neg (ne_of_gt hd)]
    have hq : 0 ≤ (capital * p.risk_percent / 100) / (price * p.stop_loss_pct / 100) :=
      div_nonneg (by positivity) (le_of_lt hd)
    unfold pyInt
    rw [if_pos hq]

/-- Witness for C7: capital 1000, risk 2%, price 50, stop 5% gives
`min ⌊20 / 2.5⌋ 100 = 8`. -/
theorem calculate_position_spec_witness :
    (0 : ℚ) < 50 ∧ (0 : ℚ) < 5 ∧ (0 : ℚ) ≤ 1000 * 2 ∧
    calculate_position ⟨2, 100, 5, 10⟩ 1000 50 = Except.ok 8 := by
  refine ⟨by norm_num, by norm_num, by norm_num, ?_⟩
  have h := (calculate_position_spec ⟨2, 100, 5, 10⟩ 1000 50).2
    (by norm_num) (by norm_num) (by norm_num)
  rw [h]
  norm_num

/-! ## Column-level infrastructure lemmas -/

lemma length_mapCol (f : Val → Val) (xs : Col) : (mapCol f xs).length = xs.length :=
  List.length_map xs f

lemma length_zip2 (g : Val → Val → Val) (xs ys : Col) :
    (zip2 g xs ys).length = xs.length := by
  simp [zip2]

lemma length_rollingMean (L : ℕ) (xs : Col) : (rollingMean L xs).length = xs.length := by
  simp [rollingMean]

lemma length_rollingStd (L : ℕ) (xs : Col) : (rollingStd L xs).length = xs.length := by
  simp [rollingStd]

lemma length_diffCol (xs : Col) : (diffCol xs).length = xs.length := by
  simp [diffCol]

lemma length_shiftCol (xs : Col) : (shiftCol xs).length = xs.length := by
  simp [shiftCol]

lemma length_trueRangeCol (high low close : Col) :
    (trueRangeCol high low close).length = high.length := by
  simp [trueRangeCol]

lemma cell_range_map (n : ℕ) (f : ℕ → Val) (i : ℕ) (h : i < n) :
    cell ((List.range n).map f) i = f i := by
  simp [cell, List.getD_eq_getElem?_getD, List.getElem?_map, List.getElem?_range, h]

lemma cell_oob (xs : Col) (i : ℕ) (h : xs.length ≤ i) : cell xs i = none := by
  simp [cell, List.getD_eq_getElem?_getD, List.getElem?_eq_none h]

lemma cell_mapCol (f : Val → Val) (xs : Col) (i : ℕ) (h : i < xs.length) :
    cell (mapCol f xs) i = f (cell xs i) := by
  simp [mapCol, cell, List.getD_eq_getElem?_getD, List.getElem?_map,
    List.getElem?_eq_getElem h]

lemma cell_zip2 (g : Val → Val → Val) (xs ys : Col) (i : ℕ) (h : i < xs.length) :
    cell (zip2 g xs ys) i = g (cell xs i) (cell ys i) := by
  unfold zip2
  exact cell_range_map _ _ _ h

lemma cell_map_some (cs : List ℝ) (j : ℕ) (h : j < cs.length) :
    cell (cs.map some) j = some (cs.getD j 0) := by
  simp [cell, List.getD_eq_getElem?_getD, List.getElem?_map, List.getElem?_eq_getElem h]

lemma cell_rollingMean (L : ℕ) (xs : Col) (i : ℕ) (hi : i < xs.length) :
    cell (rollingMean L xs) i =
      if L ≤ i + 1 then (oseq (win L i xs)).map (fun w => w.sum / (L : ℝ)) else none := by
  unfold rollingMean
  exact cell_range_map _ _ _ hi

lemma cell_rollingStd (L : ℕ) (xs : Col) (i : ℕ) (hi : i < xs.length) :
    cell (rollingStd L xs) i =
      if L ≤ i + 1 then
        (oseq (win L i xs)).bind fun w =>
          if 2 ≤ L then
            some (Real.sqrt (((w.map fun x => (x - w.sum / (L : ℝ)) ^ 2).sum) / ((L : ℝ) - 1)))
          else none
      else none := by
  unfold rollingStd
  exact cell_range_map _ _ _ hi

lemma cell_diffCol (xs : Col) (i : ℕ) (hi : i < xs.length) :
    cell (diffCol xs) i = if i = 0 then none else osub (cell xs i) (cell xs (i - 1)) := by
  unfold diffCol
  exact cell_range_map _ _ _ hi

lemma cell_shiftCol (xs : Col) (i : ℕ) (hi : i < xs.length) :
    cell (shiftCol xs) i = if i = 0 then none else cell xs (i - 1) := by
  unfold shiftCol
  exact cell_range_map _ _ _ hi

lemma oseq_map_some (w : List ℝ) : oseq (w.map some) = some w := by
  induction w with
  | nil => rfl
  | cons a t ih => simp [oseq, ih]

lemma oseq_eq_some_iff (xs : Col) (w : List ℝ) :
    oseq xs = some w ↔ xs = w.map some := by
  constructor
  · intro h
    induction xs generalizing w with
    | nil => simp [oseq] at h; simp [← h]
    | cons a t ih =>
        cases a with
        | none => simp [oseq] at h
        | some x =>
            simp only [oseq, Option.map_eq_some'] at h
            obtain ⟨w', hw', rfl⟩ := h
            simp [ih w' hw']
  · intro h
    rw [h]
    exact oseq_map_some w

lemma win_map {α β : Type} (f : α → β) (L i : ℕ) (xs : List α) :
    win L i (xs.map f) = (win L i xs).map f := by
  simp [win, List.map_take, List.map_drop]

lemma win_range (L i n : ℕ) (h1 : L ≤ i + 1) (h2 : i < n) :
    win L i (List.range n) = List.range' (i + 1 - L) L := by
  unfold win
  rw [List.take_range, Nat.min_eq_left (by omega), List.range_eq_range']
  have hsplit : List.range' 0 (i + 1 - L) ++ List.range' (0 + (i + 1 - L)) L =
      List.range' 0 (i + 1) := by
    rw [List.range'_append_1]
    congr 1
    omega
  rw [← hsplit]
  have hdrop := List.drop_left (List.range' 0 (i + 1 - L)) (List.range' (0 + (i + 1 - L)) L)
  rw [List.length_range'] at hdrop
  rw [hdrop]
  simp

lemma win_length {α : Type} (L i : ℕ) (xs : List α) (h1 : L ≤ i + 1) (h2 : i < xs.length) :
    (win L i xs).length = L := by
  simp only [win, List.length_drop, List.length_take]
  omega

lemma mem_win {α : Type} (L i : ℕ) (xs : List α) (a : α) (h : a ∈ win L i xs) : a ∈ xs :=
  List.take_subset _ _ (List.drop_subset _ _ h)

lemma sum_zero_iff_of_nonneg (l : List ℝ) (h : ∀ x ∈ l, 0 ≤ x) :
    l.sum = 0 ↔ ∀ x ∈ l, x = 0 := by
  induction l with
  | nil => simp
  | cons a t ih =>
      have ha : 0 ≤ a := h a (by simp)
      have ht : 0 ≤ t.sum := List.sum_nonneg fun x hx => h x (by simp [hx])
      constructor
      · intro hs
        simp only [List.sum_cons] at hs
        have h1 : a = 0 ∧ t.sum = 0 := ⟨by linarith, by linarith⟩
        intro x hx
        rcases List.mem_cons.mp hx with rfl | hx'
        · exact h1.1
        · exact (ih fun y hy => h y (by simp [hy])).mp h1.2 x hx'
      · intro hz
        have : a = 0 := hz a (by simp)
        have ht0 : t.sum = 0 := (ih fun y hy => h y (by simp [hy])).mpr
          fun x hx => hz x (by simp [hx])
        simp [this, ht0]

/-! ## C8: cross detection -/

lemma length_crossOfDiff (d : Col) : (crossOfDiff d).length = d.length := by
  simp [crossOfDiff]

lemma cell_crossOfDiff (d : Col) (t : ℕ) (h : t < d.length) :
    cell (crossOfDiff d) t =
      some (crossCell (cell d t) (if t = 0 then none else cell d (t - 1))) := by
  unfold crossOfDiff
  exact cell_range_map _ _ _ h

lemma zip2_osub_swap (A B : Col) (j : ℕ) (hj : j < A.length) (hlen : A.length = B.length) :
    cell (zip2 osub B A) j = (cell (zip2 osub A B) j).map (fun x => -x) := by
  rw [cell_zip2 _ _ _ _ (by omega : j < B.length), cell_zip2 _ _ _ _ hj]
  cases cell A j <;> cases cell B j <;> simp [osub]

lemma crossCell_neg_eq (a b : ℝ) :
    crossCell (some (-a)) (some (-b)) = - crossCell (some a) (some b) := by
  simp only [crossCell]
  by_cases h1 : 0 < a ∧ b ≤ 0
  · rw [if_pos h1, if_neg (fun h => by linarith [h.1, h1.1]),
      if_pos (⟨by linarith [h1.1], by linarith [h1.2]⟩ : -a < 0 ∧ 0 ≤ -b)]
  · by_cases h2 : a < 0 ∧ 0 ≤ b
    · rw [if_neg h1, if_pos h2,
        if_pos (⟨by linarith [h2.1], by linarith [h2.2]⟩ : 0 < -a ∧ -b ≤ 0)]
      norm_num
    · rw [if_neg h1, if_neg h2,
        if_neg (fun h => h2 ⟨by linarith [h.1], by linarith [h.2]⟩),
        if_neg (fun h => h1 ⟨by linarith [h.1], by linarith [h.2]⟩)]
      norm_num

lemma crossCell_map_neg (c p : Val) :
    crossCell (c.map (fun x => -x)) (p.map (fun x => -x)) = - crossCell c p := by
  cases c with
  | none => simp [crossCell]
  | some a =>
      cases p with
      | none => simp [crossCell]
      | some b => simpa using crossCell_neg_eq a b

/-- C8: cross detection is antisymmetric — for aligned series `A`, `B`, the
`cross_signal` of `detect_ma_cross` marks a golden cross (`1`) on `(A, B)` at
`t` exactly when it marks a death cross (`-1`) on `(B, A)` at `t`, and vice
versa. -/
theorem cross_antisymmetry (A B : Col) (hlen : A.length = B.length) (t : ℕ) :
    (cell (crossSignalCol A B) t = some 1 ↔ cell (crossSignalCol B A) t = some (-1)) ∧
    (cell (crossSignalCol A B) t = some (-1) ↔ cell (crossSignalCol B A) t = some 1) := by
  by_cases ht : t < A.length
  · unfold crossSignalCol
    have hdAB : t < (zip2 osub A B).length := by rw [length_zip2]; exact ht
    have hdBA : t < (zip2 osub B A).length := by rw [length_zip2]; omega
    rw [cell_crossOfDiff _ _ hdAB, cell_crossOfDiff _ _ hdBA]
    have hc : cell (zip2 osub B A) t = (cell (zip2 osub A B) t).map (fun x => -x) :=
      zip2_osub_swap A B t ht hlen
    have hp : (if t = 0 then none else cell (zip2 osub B A) (t - 1)) =
        (if t = 0 then (none : Val) else cell (zip2 osub A B) (t - 1)).map (fun x => -x) := by
      split_ifs with h0
      · simp
      · exact zip2_osub_swap A B (t - 1) (by omega) hlen
    rw [hc, hp, crossCell_map_neg]
    constructor <;> constructor <;> intro h <;>
      simp only [Option.some.injEq] at h ⊢ <;> linarith
  · have h1 : cell (crossSignalCol A B) t = none := by
      apply cell_oob
      unfold crossSignalCol
      rw [length_crossOfDiff, length_zip2]
      omega
    have h2 : cell (crossSignalCol B A) t = none := by
      apply cell_oob
      unfold crossSignalCol
      rw [length_crossOfDiff, length_zip2]
      omega
    rw [h1, h2]
    simp

/-- Witness for C8: series `A = [1, 0]`, `B = [0, 1]` — a death cross of
`(A, B)` at index 1, a golden cross of `(B, A)` there. -/
theorem cross_antisymmetry_witness :
    ([some (1 : ℝ), some 0] : Col).length = ([some 0, some 1] : Col).length ∧
    (cell (crossSignalCol [some (1 : ℝ), some 0] [some 0, some 1]) 1 = some (-1) ↔
      cell (crossSignalCol [some (0 : ℝ), some 1] [some 1, some 0]) 1 = some 1) :=
  ⟨rfl, (cross_antisymmetry [some 1, some 0] [some 0, some 1] rfl 1).2⟩

/-! ## C9: ATR and true range -/

lemma cell_trueRangeCol (high low close : Col) (i : ℕ) (hi : i < high.length) :
    cell (trueRangeCol high low close) i =
      omax (omax (cell (zip2 osub high low) i)
                 (cell (mapCol oabs (zip2 osub high (shiftCol close))) i))
           (cell (mapCol oabs (zip2 osub low (shiftCol close))) i) := by
  unfold trueRangeCol
  exact cell_range_map _ _ _ hi

lemma oseq_total (xs : Col) (h : ∀ v ∈ xs, v.isSome) :
    ∃ w : List ℝ, oseq xs = some w ∧ w.length = xs.length := by
  induction xs with
  | nil => exact ⟨[], rfl, rfl⟩
  | cons a t ih =>
      obtain ⟨w, hw, hl⟩ := ih fun v hv => h v (by simp [hv])
      cases a with
      | none => exact absurd (h none (by simp)) (by simp)
      | some x => exact ⟨x :: w, by simp [oseq, hw], by simp [hl]⟩

lemma trueRangeCol_total (hs ls cs : List ℝ)
    (hl : ls.length = hs.length) :
    ∀ v ∈ trueRangeCol (hs.map some) (ls.map some) (cs.map some), v.isSome := by
  intro v hv
  unfold trueRangeCol at hv
  rw [List.mem_map] at hv
  obtain ⟨j, hj, rfl⟩ := hv
  rw [List.mem_range] at hj
  rw [List.length_map] at hj
  have h1 : cell (zip2 osub (hs.map some) (ls.map some)) j =
      some (hs.getD j 0 - ls.getD j 0) := by
    rw [cell_zip2 _ _ _ _ (by simpa using hj), cell_map_some _ _ hj,
      cell_map_some _ _ (by omega)]
    rfl
  rw [h1]
  cases cell (mapCol oabs (zip2 osub (hs.map some) (shiftCol (cs.map some)))) j <;>
    cases cell (mapCol oabs (zip2 osub (ls.map some) (shiftCol (cs.map some)))) j <;>
      simp [omax]

/-- C9: the true range of `add_atr` is `high - low` at index 0 (the shifted
previous close is `NaN` there and `np.max` skips it), is
`max(high-low, |high-prev_close|, |low-prev_close|)` at every later index, and
the `atr` column is the simple rolling mean of the true range over the
period. -/
theorem atr_true_range_spec (hs ls cs : List ℝ)
    (hl : ls.length = hs.length) (hc : cs.length = hs.length) (p : ℕ) :
    (0 < hs.length →
      cell (trueRangeCol (hs.map some) (ls.map some) (cs.map some)) 0 =
        some (hs.getD 0 0 - ls.getD 0 0)) ∧
    (∀ t, 1 ≤ t → t < hs.length →
      cell (trueRangeCol (hs.map some) (ls.map some) (cs.map some)) t =
        some (max (max (hs.getD t 0 - ls.getD t 0) |hs.getD t 0 - cs.getD (t - 1) 0|)
                  |ls.getD t 0 - cs.getD (t - 1) 0|)) ∧
    (∀ i, i < hs.length → 1 ≤ p → p ≤ i + 1 →
      ∃ w : List ℝ,
        oseq (win p i (trueRangeCol (hs.map some) (ls.map some) (cs.map some))) = some w ∧
        w.length = p ∧
        cell (atrCol p (hs.map some) (ls.map some) (cs.map some)) i = some (w.sum / p)) := by
  refine ⟨?_, ?_, ?_⟩
  · intro h0
    rw [cell_trueRangeCol _ _ _ 0 (by simpa using h0)]
    have h1 : cell (zip2 osub (hs.map some) (ls.map some)) 0 =
        some (hs.getD 0 0 - ls.getD 0 0) := by
      rw [cell_zip2 _ _ _ _ (by simpa using h0), cell_map_some _ _ h0,
        cell_map_some _ _ (by omega)]
      rfl
    have h2 : cell (mapCol oabs (zip2 osub (hs.map some) (shiftCol (cs.map some)))) 0 =
        none := by
      rw [cell_mapCol _ _ _ (by simp [length_zip2]; simpa using h0),
        cell_zip2 _ _ _ _ (by simpa using h0),
        cell_shiftCol _ _ (by simp; omega)]
      simp [osub, oabs]
    have h3 : cell (mapCol oabs (zip2 osub (ls.map some) (shiftCol (cs.map some)))) 0 =
        none := by
      rw [cell_mapCol _ _ _ (by simp [length_zip2]; omega),
        cell_zip2 _ _ _ _ (by simp; omega),
        cell_shiftCol _ _ (by simp; omega)]
      cases cell (ls.map some) 0 <;> simp [osub, oabs]
    rw [h1, h2, h3]
    rfl
  · intro t ht1 ht2
    rw [cell_trueRangeCol _ _ _ t (by simpa using ht2)]
    have h1 : cell (zip2 osub (hs.map some) (ls.map some)) t =
        some (hs.getD t 0 - ls.getD t 0) := by
      rw [cell_zip2 _ _ _ _ (by simpa using ht2), cell_map_some _ _ ht2,
        cell_map_some _ _ (by omega)]
      rfl
    have h2 : cell (mapCol oabs (zip2 osub (hs.map some) (shiftCol (cs.map some)))) t =
        some |hs.getD t 0 - cs.getD (t - 1) 0| := by
      rw [cell_mapCol _ _ _ (by simp [length_zip2]; simpa using ht2),
        cell_zip2 _ _ _ _ (by simpa using ht2),
        cell_shiftCol _ _ (by simp; omega), if_neg (by omega : ¬ t = 0),
        cell_map_some _ _ ht2, cell_map_some _ _ (by omega)]
      rfl
    have h3 : cell (mapCol oabs (zip2 osub (ls.map some) (shiftCol (cs.map some)))) t =
        some |ls.getD t 0 - cs.getD (t - 1) 0| := by
      rw [cell_mapCol _ _ _ (by simp [length_zip2]; omega),
        cell_zip2 _ _ _ _ (by simp; omega),
        cell_shiftCol _ _ (by simp; omega), if_neg (by omega : ¬ t = 0),
        cell_map_some _ _ (by omega), cell_map_some _ _ (by omega)]
      rfl
    rw [h1, h2, h3]
    rfl
  · intro i hi hp1 hp2
    have htot := trueRangeCol_total hs ls cs hl
    have hlen : (trueRangeCol (hs.map some) (ls.map some) (cs.map some)).length =
        hs.length := by
      rw [length_trueRangeCol, List.length_map]
    obtain ⟨w, hw, hwl⟩ := oseq_total _ fun v hv => htot v (mem_win _ _ _ _ hv)
    refine ⟨w, hw, ?_, ?_⟩
    · rw [hwl, win_length _ _ _ hp2 (by omega)]
    · unfold atrCol
      rw [cell_rollingMean _ _ _ (by omega), if_pos hp2, hw]
      rfl

/-- Witness for C9: highs `[10, 12]`, lows `[9, 10]`, closes `[9, 11]`,
period 2 — `TR₀ = 1` (no previous close), `TR₁ = max(2, 3, 1) = 3`,
`ATR₂` at index 1 is `(1 + 3)/2 = 2`. -/
theorem atr_true_range_spec_witness :
    cell (trueRangeCol (([10, 12] : List ℝ).map some) (([9, 10] : List ℝ).map some)
        (([9, 11] : List ℝ).map some)) 0 = some (10 - 9) ∧
    cell (trueRangeCol (([10, 12] : List ℝ).map some) (([9, 10] : List ℝ).map some)
        (([9, 11] : List ℝ).map some)) 1 =
      some (max (max (12 - 10) |12 - 9|) |10 - 9|) ∧
    (∃ w : List ℝ,
      oseq (win 2 1 (trueRangeCol (([10, 12] : List ℝ).map some)
        (([9, 10] : List ℝ).map some) (([9, 11] : List ℝ).map some))) = some w ∧
      w.length = 2 ∧
      cell (atrCol 2 (([10, 12] : List ℝ).map some) (([9, 10] : List ℝ).map some)
        (([9, 11] : List ℝ).map some)) 1 = some (w.sum / 2)) := by
  have h := atr_true_range_spec [10, 12] [9, 10] [9, 11] rfl rfl 2
  refine ⟨?_, ?_, h.2.2 1 (by norm_num) (by norm_num) (by norm_num)⟩
  · have := h.1 (by norm_num)
    simpa using this
  · have := h.2.1 1 (by norm_num) (by norm_num)
    simpa using this

/-! ## C1: Bollinger bands -/

/-- Specification-side definition, following the spec's words: the
*population* standard deviation of a window (denominator = sample size `L`).
The claim asserts the engine uses this. -/
noncomputable def specPopStd (L : ℕ) (w : List ℝ) : ℝ :=
  Real.sqrt (((w.map fun x => (x - w.sum / (L : ℝ)) ^ 2).sum) / (L : ℝ))

/-- Specification-side definition for the amended claim: the *sample*
standard deviation of a window (denominator `L - 1`, pandas `ddof=1`). -/
noncomputable def specSampleStd (L : ℕ) (w : List ℝ) : ℝ :=
  Real.sqrt (((w.map fun x => (x - w.sum / (L : ℝ)) ^ 2).sum) / ((L : ℝ) - 1))

/-- C1 counterexample: closes `[0, 2]`, period 2, k = 2.  The code's
`boll_up` at index 1 is `1 + 2·√2` (sample std `√2`), while the claimed
population-std formula gives `1 + 2·1 = 3`, and `1 + 2·√2 ≠ 3`. -/
theorem bollinger_population_std_counterexample :
    cell (bollUp 2 2 ([(0 : ℝ), 2].map some)) 1 = some (1 + 2 * Real.sqrt 2) ∧
    specPopStd 2 [(0 : ℝ), 2] = 1 ∧
    (1 + 2 * Real.sqrt 2 : ℝ) ≠ 1 + 2 * 1 := by
  have hsqrt2 : (1 : ℝ) < Real.sqrt 2 := by
    rw [show (1 : ℝ) = Real.sqrt 1 by rw [Real.sqrt_one]]
    exact Real.sqrt_lt_sqrt (by norm_num) (by norm_num)
  refine ⟨?_, ?_, by intro h; rw [mul_one] at h; nlinarith⟩
  · have hX : ([(0 : ℝ), 2].map some).length = 2 := rfl
    have hwin : win 2 1 ([(0 : ℝ), 2].map some) = [some 0, some 2] := rfl
    have hmid : cell (bollMid 2 ([(0 : ℝ), 2].map some)) 1 = some 1 := by
      unfold bollMid
      rw [cell_rollingMean 2 _ 1 (by rw [hX]; norm_num), if_pos (by norm_num), hwin]
      norm_num [oseq]
    have hstd : cell (bollStd 2 ([(0 : ℝ), 2].map some)) 1 = some (Real.sqrt 2) := by
      unfold bollStd
      rw [cell_rollingStd 2 _ 1 (by rw [hX]; norm_num), if_pos (by norm_num), hwin]
      norm_num [oseq]
    unfold bollUp
    rw [cell_zip2 _ _ _ 1 (by unfold bollMid; rw [length_rollingMean, hX]; norm_num),
      hmid, cell_mapCol _ _ 1 (by unfold bollStd; rw [length_rollingStd, hX]; norm_num),
      hstd]
    simp [oadd, kmul]
  · unfold specPopStd
    norm_num

/-- C1 (amended): on every fully-populated window the engine's Bollinger
bands satisfy `boll_mid = ` simple moving average of the window,
`boll_up = boll_mid + k·std` and `boll_down = boll_mid - k·std`, where `std`
is the **sample** standard deviation of the window (denominator `period - 1`,
pandas `ddof=1`), not the population standard deviation. -/
theorem bollinger_sample_std (L k : ℕ) (xs : Col) (i : ℕ) (w : List ℝ)
    (hL : 2 ≤ L) (hi : L ≤ i + 1) (hx : i < xs.length)
    (hw : oseq (win L i xs) = some w) :
    cell (bollMid L xs) i = some (w.sum / (L : ℝ)) ∧
    cell (bollUp L k xs) i = some (w.sum / (L : ℝ) + k * specSampleStd L w) ∧
    cell (bollDown L k xs) i = some (w.sum / (L : ℝ) - k * specSampleStd L w) := by
  have hmid : cell (bollMid L xs) i = some (w.sum / (L : ℝ)) := by
    unfold bollMid
    rw [cell_rollingMean L xs i hx, if_pos hi, hw]
    rfl
  have hstd : cell (bollStd L xs) i = some (specSampleStd L w) := by
    unfold bollStd
    rw [cell_rollingStd L xs i hx, if_pos hi, hw]
    simp only [Option.some_bind, if_pos hL]
    rfl
  refine ⟨hmid, ?_, ?_⟩
  · unfold bollUp
    rw [cell_zip2 _ _ _ i (by unfold bollMid; rw [length_rollingMean]; exact hx),
      hmid, cell_mapCol _ _ _ (by unfold bollStd; rw [length_rollingStd]; exact hx), hstd]
    simp [oadd, kmul]
  · unfold bollDown
    rw [cell_zip2 _ _ _ i (by unfold bollMid; rw [length_rollingMean]; exact hx),
      hmid, cell_mapCol _ _ _ (by unfold bollStd; rw [length_rollingStd]; exact hx), hstd]
    simp [osub, kmul]

/-- Witness for C1: closes `[0, 2]`, period 2, k = 2 — the window is `[0, 2]`
with mean 1 and sample standard deviation `√2`. -/
theorem bollinger_sample_std_witness :
    (2 ≤ 2 ∧ 2 ≤ 1 + 1 ∧ 1 < ([(0 : ℝ), 2].map some).length ∧
      oseq (win 2 1 ([(0 : ℝ), 2].map some)) = some [0, 2]) ∧
    cell (bollUp 2 2 ([(0 : ℝ), 2].map some)) 1 =
      some (([(0 : ℝ), 2].sum) / (2 : ℝ) + 2 * specSampleStd 2 [0, 2]) := by
  refine ⟨⟨le_refl 2, le_refl 2, by norm_num, rfl⟩, ?_⟩
  exact (bollinger_sample_std 2 2 ([(0 : ℝ), 2].map some) 1 [0, 2]
    (le_refl 2) (by norm_num) (by norm_num) rfl).2.1

/-! ## C5: RSI degenerate window and bounds -/

lemma gainCell_nonneg (v : Val) (a : ℝ) (h : gainCell v = some a) : 0 ≤ a := by
  cases v with
  | none =>
      simp only [gainCell, Option.some.injEq] at h
      exact h ▸ le_refl 0
  | some b =>
      by_cases hb : 0 < b
      · rw [show gainCell (some b) = if 0 < b then some b else some 0 from rfl,
          if_pos hb, Option.some.injEq] at h
        linarith [h ▸ hb]
      · rw [show gainCell (some b) = if 0 < b then some b else some 0 from rfl,
          if_neg hb, Option.some.injEq] at h
        exact h ▸ le_refl 0

lemma lossCell_nonneg (v : Val) (a : ℝ) (h : lossCell v = some a) : 0 ≤ a := by
  cases v with
  | none =>
      simp only [lossCell, Option.some.injEq] at h
      exact h ▸ le_refl 0
  | some b =>
      by_cases hb : b < 0
      · rw [show lossCell (some b) = if b < 0 then some (-b) else some 0 from rfl,
          if_pos hb, Option.some.injEq] at h
        rw [← h]
        linarith
      · rw [show lossCell (some b) = if b < 0 then some (-b) else some 0 from rfl,
          if_neg hb, Option.some.injEq] at h
        exact h ▸ le_refl 0

lemma rollingMean_cell_nonneg (L : ℕ) (xs : Col)
    (hxs : ∀ v ∈ xs, ∀ a : ℝ, v = some a → 0 ≤ a)
    (i : ℕ) (m : ℝ) (hm : cell (rollingMean L xs) i = some m) : 0 ≤ m := by
  by_cases hx : i < xs.length
  · rw [cell_rollingMean L xs i hx] at hm
    by_cases hL : L ≤ i + 1
    · rw [if_pos hL] at hm
      rw [Option.map_eq_some'] at hm
      obtain ⟨w, hw, rfl⟩ := hm
      have hwn : ∀ x ∈ w, 0 ≤ x := by
        intro x hxw
        have hmem : some x ∈ win L i xs := by
          rw [(oseq_eq_some_iff _ _).mp hw]
          exact List.mem_map_of_mem some hxw
        exact hxs (some x) (mem_win _ _ _ _ hmem) x rfl
      exact div_nonneg (List.sum_nonneg hwn) (Nat.cast_nonneg L)
    · rw [if_neg hL] at hm
      exact absurd hm (by simp)
  · rw [cell_oob _ _ (by rw [length_rollingMean]; omega)] at hm
    exact absurd hm (by simp)

lemma avgGainCol_cell_nonneg (L : ℕ) (closes : Col) (i : ℕ) (m : ℝ)
    (hm : cell (avgGainCol L closes) i = some m) : 0 ≤ m := by
  refine rollingMean_cell_nonneg L _ ?_ i m hm
  intro v hv a ha
  rw [mapCol, List.mem_map] at hv
  obtain ⟨u, _, rfl⟩ := hv
  exact gainCell_nonneg u a ha

lemma avgLossCol_cell_nonneg (L : ℕ) (closes : Col) (i : ℕ) (m : ℝ)
    (hm : cell (avgLossCol L closes) i = some m) : 0 ≤ m := by
  refine rollingMean_cell_nonneg L _ ?_ i m hm
  intro v hv a ha
  rw [mapCol, List.mem_map] at hv
  obtain ⟨u, _, rfl⟩ := hv
  exact lossCell_nonneg u a ha

/-- C5: when a fully-populated RSI window has average loss 0 and average gain
`> 0`, the RSI value is defined and equals exactly 100 (the float division by
zero resolves to `inf` and the formula to 100, without raising); and every
defined RSI value lies in `[0, 100]`. -/
theorem rsi_degenerate_and_bounds (L : ℕ) (closes : Col) (i : ℕ) :
    (∀ g : ℝ, cell (avgGainCol L closes) i = some g → 0 < g →
      cell (avgLossCol L closes) i = some 0 →
      cell (rsiCol L closes) i = some 100) ∧
    (∀ x : ℝ, cell (rsiCol L closes) i = some x → 0 ≤ x ∧ x ≤ 100) := by
  constructor
  · intro g hg hgpos hl
    have hi : i < (avgGainCol L closes).length := by
      by_contra hcon
      rw [cell_oob _ _ (by omega)] at hg
      exact absurd hg (by simp)
    unfold rsiCol
    rw [cell_zip2 _ _ _ i hi, hg, hl]
    rw [show rsiCell (some g) (some 0) =
      if (0 : ℝ) = 0 then (if g = 0 then none else some 100)
      else some (100 - 100 / (1 + g / 0)) from rfl]
    rw [if_pos rfl, if_neg (by linarith)]
  · intro x hx
    have hi : i < (avgGainCol L closes).length := by
      by_contra hcon
      unfold rsiCol at hx
      rw [cell_oob _ _ (by rw [length_zip2]; omega)] at hx
      exact absurd hx (by simp)
    unfold rsiCol at hx
    rw [cell_zip2 _ _ _ i hi] at hx
    rcases hG : cell (avgGainCol L closes) i with _ | g
    · rw [hG] at hx
      exact absurd hx (by rw [show rsiCell none (cell (avgLossCol L closes) i) = none
        by cases cell (avgLossCol L closes) i <;> rfl]; simp)
    rcases hL : cell (avgLossCol L closes) i with _ | l
    · rw [hG, hL] at hx
      exact absurd hx (by simp [rsiCell])
    rw [hG, hL] at hx
    have hg0 : 0 ≤ g := avgGainCol_cell_nonneg L closes i g hG
    have hl0 : 0 ≤ l := avgLossCol_cell_nonneg L closes i l hL
    rw [show rsiCell (some g) (some l) =
      if l = 0 then (if g = 0 then none else some 100)
      else some (100 - 100 / (1 + g / l)) from rfl] at hx
    by_cases hlz : l = 0
    · rw [if_pos hlz] at hx
      by_cases hgz : g = 0
      · rw [if_pos hgz] at hx
        exact absurd hx (by simp)
      · rw [if_neg hgz, Option.some.injEq] at hx
        rw [← hx]
        norm_num
    · rw [if_neg hlz, Option.some.injEq] at hx
      have hlpos : 0 < l := lt_of_le_of_ne hl0 (Ne.symm hlz)
      have hq : 0 ≤ g / l := div_nonneg hg0 hl0
      have h1q : (0 : ℝ) < 1 + g / l := by linarith
      have hdivpos : 0 < 100 / (1 + g / l) := by positivity
      have hdivle : 100 / (1 + g / l) ≤ 100 := by
        rw [div_le_iff₀ h1q]
        nlinarith
      subst hx
      constructor <;> linarith

/-- Witness for C5: closes `[1, 2, 3]`, RSI window 2 at index 2 — both deltas
are gains, so the average loss is 0, the average gain is 1 and the RSI is
exactly 100. -/
theorem rsi_degenerate_and_bounds_witness :
    cell (avgGainCol 2 ([(1 : ℝ), 2, 3].map some)) 2 = some 1 ∧
    (0 : ℝ) < 1 ∧
    cell (avgLossCol 2 ([(1 : ℝ), 2, 3].map some)) 2 = some 0 ∧
    cell (rsiCol 2 ([(1 : ℝ), 2, 3].map some)) 2 = some 100 := by
  have hg : cell (avgGainCol 2 ([(1 : ℝ), 2, 3].map some)) 2 = some 1 := by
    norm_num [avgGainCol, rollingMean, mapCol, diffCol, win, oseq, cell, gainCell, osub,
      List.range_succ]
  have hl : cell (avgLossCol 2 ([(1 : ℝ), 2, 3].map some)) 2 = some 0 := by
    norm_num [avgLossCol, rollingMean, mapCol, diffCol, win, oseq, cell, lossCell, osub,
      List.range_succ]
  exact ⟨hg, by norm_num, hl,
    (rsi_degenerate_and_bounds 2 ([(1 : ℝ), 2, 3].map some) 2).1 1 hg (by norm_num) hl⟩

/-! ## C2: warm-up definedness -/

lemma gainCell_isSome (v : Val) : (gainCell v).isSome := by
  cases v with
  | none => rfl
  | some a =>
      rw [show gainCell (some a) = if 0 < a then some a else some 0 from rfl]
      split <;> rfl

lemma lossCell_isSome (v : Val) : (lossCell v).isSome := by
  cases v with
  | none => rfl
  | some a =>
      rw [show lossCell (some a) = if a < 0 then some (-a) else some 0 from rfl]
      split <;> rfl

lemma rollingMean_defined_iff (L : ℕ) (xs : Col) (hxs : ∀ v ∈ xs, v.isSome) (i : ℕ)
    (hi : i < xs.length) : (cell (rollingMean L xs) i).isSome ↔ L ≤ i + 1 := by
  rw [cell_rollingMean L xs i hi]
  by_cases hL : L ≤ i + 1
  · rw [if_pos hL]
    obtain ⟨w, hw, _⟩ := oseq_total (win L i xs) fun v hv => hxs v (mem_win _ _ _ _ hv)
    rw [hw]
    simp [hL]
  · rw [if_neg hL]
    simp [hL]

lemma rollingStd_defined_iff (L : ℕ) (xs : Col) (hxs : ∀ v ∈ xs, v.isSome) (i : ℕ)
    (hi : i < xs.length) :
    (cell (rollingStd L xs) i).isSome ↔ (L ≤ i + 1 ∧ 2 ≤ L) := by
  rw [cell_rollingStd L xs i hi]
  by_cases hL : L ≤ i + 1
  · rw [if_pos hL]
    obtain ⟨w, hw, _⟩ := oseq_total (win L i xs) fun v hv => hxs v (mem_win _ _ _ _ hv)
    rw [hw]
    by_cases h2 : 2 ≤ L
    · simp [hL, h2]
    · simp [hL, h2]
  · rw [if_neg hL]
    simp [hL]

/-- Pointwise evaluation of `f(delta).rolling(L).mean()` on a fully-populated
window, for a cellwise map `f` that is total and matches `fr` on the deltas. -/
lemma avg_window_eval (L : ℕ) (cs : List ℝ) (i : ℕ) (hiL : L ≤ i + 1)
    (hi : i < cs.length) (fc : Val → Val) (fr : ℕ → ℝ)
    (hf : ∀ j, j ≤ i → fc (if j = 0 then none
        else osub (cell (cs.map some) j) (cell (cs.map some) (j - 1))) = some (fr j)) :
    cell (rollingMean L (mapCol fc (diffCol (cs.map some)))) i =
      some ((((List.range' (i + 1 - L) L).map fr).sum) / (L : ℝ)) := by
  have hn : (cs.map some).length = cs.length := List.length_map _ _
  have hcol : mapCol fc (diffCol (cs.map some)) =
      (List.range cs.length).map fun j =>
        fc (if j = 0 then none
            else osub (cell (cs.map some) j) (cell (cs.map some) (j - 1))) := by
    unfold mapCol diffCol
    rw [List.map_map, hn]
    rfl
  rw [hcol]
  have hwin : win L i ((List.range cs.length).map fun j =>
      fc (if j = 0 then none
          else osub (cell (cs.map some) j) (cell (cs.map some) (j - 1)))) =
      ((List.range' (i + 1 - L) L).map fr).map some := by
    rw [win_map, win_range L i cs.length hiL hi, List.map_map]
    apply List.map_congr_left
    intro j hj
    rw [List.mem_range'_1] at hj
    exact hf j (by omega)
  rw [cell_rollingMean _ _ i (by simpa using hi), if_pos hiL, hwin, oseq_map_some]
  rfl

lemma avgGainCol_eval (L : ℕ) (cs : List ℝ) (i : ℕ) (hiL : L ≤ i + 1)
    (hi : i < cs.length) :
    cell (avgGainCol L (cs.map some)) i =
      some ((((List.range' (i + 1 - L) L).map fun j =>
        if j = 0 then (0 : ℝ)
        else if 0 < cs.getD j 0 - cs.getD (j - 1) 0 then cs.getD j 0 - cs.getD (j - 1) 0
        else 0).sum) / (L : ℝ)) := by
  unfold avgGainCol
  apply avg_window_eval L cs i hiL hi
  intro j hj
  by_cases hj0 : j = 0
  · rw [if_pos hj0, if_pos hj0]
    rfl
  · rw [if_neg hj0, if_neg hj0, cell_map_some cs j (by omega),
      cell_map_some cs (j - 1) (by omega)]
    rw [show osub (some (cs.getD j 0)) (some (cs.getD (j - 1) 0)) =
      some (cs.getD j 0 - cs.getD (j - 1) 0) from rfl,
      show gainCell (some (cs.getD j 0 - cs.getD (j - 1) 0)) =
        if 0 < cs.getD j 0 - cs.getD (j - 1) 0
        then some (cs.getD j 0 - cs.getD (j - 1) 0) else some 0 from rfl]
    split_ifs with hd <;> rfl

lemma avgLossCol_eval (L : ℕ) (cs : List ℝ) (i : ℕ) (hiL : L ≤ i + 1)
    (hi : i < cs.length) :
    cell (avgLossCol L (cs.map some)) i =
      some ((((List.range' (i + 1 - L) L).map fun j =>
        if j = 0 then (0 : ℝ)
        else if cs.getD j 0 - cs.getD (j - 1) 0 < 0 then -(cs.getD j 0 - cs.getD (j - 1) 0)
        else 0).sum) / (L : ℝ)) := by
  unfold avgLossCol
  apply avg_window_eval L cs i hiL hi
  intro j hj
  by_cases hj0 : j = 0
  · rw [if_pos hj0, if_pos hj0]
    rfl
  · rw [if_neg hj0, if_neg hj0, cell_map_some cs j (by omega),
      cell_map_some cs (j - 1) (by omega)]
    rw [show osub (some (cs.getD j 0)) (some (cs.getD (j - 1) 0)) =
      some (cs.getD j 0 - cs.getD (j - 1) 0) from rfl,
      show lossCell (some (cs.getD j 0 - cs.getD (j - 1) 0)) =
        if cs.getD j 0 - cs.getD (j - 1) 0 < 0
        then some (-(cs.getD j 0 - cs.getD (j - 1) 0)) else some 0 from rfl]
    split_ifs with hd <;> rfl

lemma rsi_flat_iff (L : ℕ) (cs : List ℝ) (i : ℕ) (hL : 1 ≤ L) (hi : i < cs.length) :
    (cell (avgGainCol L (cs.map some)) i = some 0 ∧
     cell (avgLossCol L (cs.map some)) i = some 0) ↔
    (L ≤ i + 1 ∧ ∀ j, i + 1 - L ≤ j → j ≤ i → j ≠ 0 →
      cs.getD j 0 = cs.getD (j - 1) 0) := by
  by_cases hiL : L ≤ i + 1
  · rw [avgGainCol_eval L cs i hiL hi, avgLossCol_eval L cs i hiL hi]
    have hLne : ((L : ℝ)) ≠ 0 := Nat.cast_ne_zero.mpr (by omega)
    have hgnn : ∀ x ∈ (List.range' (i + 1 - L) L).map fun j =>
        if j = 0 then (0 : ℝ)
        else if 0 < cs.getD j 0 - cs.getD (j - 1) 0 then cs.getD j 0 - cs.getD (j - 1) 0
        else 0, 0 ≤ x := by
      intro x hx
      obtain ⟨j, _, rfl⟩ := List.mem_map.mp hx
      split_ifs with h1 h2
      · exact le_refl 0
      · linarith
      · exact le_refl 0
    have hlnn : ∀ x ∈ (List.range' (i + 1 - L) L).map fun j =>
        if j = 0 then (0 : ℝ)
        else if cs.getD j 0 - cs.getD (j - 1) 0 < 0 then -(cs.getD j 0 - cs.getD (j - 1) 0)
        else 0, 0 ≤ x := by
      intro x hx
      obtain ⟨j, _, rfl⟩ := List.mem_map.mp hx
      split_ifs with h1 h2
      · exact le_refl 0
      · linarith
      · exact le_refl 0
    simp only [Option.some.injEq, div_eq_zero_iff]
    constructor
    · rintro ⟨hg, hl⟩
      have hgsum := hg.resolve_right hLne
      have hlsum := hl.resolve_right hLne
      refine ⟨hiL, fun j hj1 hj2 hj0 => ?_⟩
      have hjm : j ∈ List.range' (i + 1 - L) L := List.mem_range'_1.mpr ⟨hj1, by omega⟩
      have hgz := (sum_zero_iff_of_nonneg _ hgnn).mp hgsum _
        (List.mem_map_of_mem _ hjm)
      have hlz := (sum_zero_iff_of_nonneg _ hlnn).mp hlsum _
        (List.mem_map_of_mem _ hjm)
      rw [if_neg hj0] at hgz hlz
      by_cases hd1 : 0 < cs.getD j 0 - cs.getD (j - 1) 0
      · rw [if_pos hd1] at hgz
        linarith
      · by_cases hd2 : cs.getD j 0 - cs.getD (j - 1) 0 < 0
        · rw [if_pos hd2] at hlz
          linarith
        · have : cs.getD j 0 - cs.getD (j - 1) 0 = 0 := by linarith
          linarith [sub_eq_zero.mp this]
    · rintro ⟨_, hflat⟩
      constructor <;> left <;>
        (rw [sum_zero_iff_of_nonneg _ (by assumption)]
         intro x hx
         obtain ⟨j, hjm, rfl⟩ := List.mem_map.mp hx
         rw [List.mem_range'_1] at hjm
         by_cases hj0 : j = 0
         · rw [if_pos hj0]
         · rw [if_neg hj0,
             sub_eq_zero.mpr (hflat j hjm.1 (by omega) hj0)]
           norm_num)
  · constructor
    · rintro ⟨hg, _⟩
      have hnone : cell (avgGainCol L (cs.map some)) i = none := by
        unfold avgGainCol
        rw [cell_rollingMean _ _ i
          (by rw [length_mapCol, length_diffCol, List.length_map]; exact hi), if_neg hiL]
      rw [hnone] at hg
      exact absurd hg (by simp)
    · rintro ⟨h1, _⟩
      exact absurd h1 hiL

lemma oadd_isSome (a b : Val) : (oadd a b).isSome ↔ (a.isSome ∧ b.isSome) := by
  cases a <;> cases b <;> simp [oadd]

lemma osub_isSome (a b : Val) : (osub a b).isSome ↔ (a.isSome ∧ b.isSome) := by
  cases a <;> cases b <;> simp [osub]

lemma kmul_isSome (k : ℝ) (v : Val) : (kmul k v).isSome ↔ v.isSome := by
  cases v <;> simp [kmul]

lemma avgGainCol_length (L : ℕ) (closes : Col) :
    (avgGainCol L closes).length = closes.length := by
  unfold avgGainCol
  rw [length_rollingMean, length_mapCol, length_diffCol]

lemma avgLossCol_length (L : ℕ) (closes : Col) :
    (avgLossCol L closes).length = closes.length := by
  unfold avgLossCol
  rw [length_rollingMean, length_mapCol, length_diffCol]

lemma rsi_defined_iff (L : ℕ) (cs : List ℝ) (i : ℕ) (hi : i < cs.length) :
    (cell (rsiCol L (cs.map some)) i).isSome ↔
      (L ≤ i + 1 ∧ ¬(cell (avgGainCol L (cs.map some)) i = some 0 ∧
                     cell (avgLossCol L (cs.map some)) i = some 0)) := by
  have hin : i < (cs.map some).length := by rw [List.length_map]; exact hi
  have hGlen : i < (avgGainCol L (cs.map some)).length := by
    rw [avgGainCol_length, List.length_map]; exact hi
  unfold rsiCol
  rw [cell_zip2 _ _ _ i hGlen]
  by_cases hiL : L ≤ i + 1
  · have hGdef : (cell (avgGainCol L (cs.map some)) i).isSome := by
      unfold avgGainCol
      refine (rollingMean_defined_iff _ _ ?_ i
        (by rw [length_mapCol, length_diffCol]; exact hin)).mpr hiL
      intro v hv
      obtain ⟨u, _, rfl⟩ := List.mem_map.mp hv
      exact gainCell_isSome u
    have hLdef : (cell (avgLossCol L (cs.map some)) i).isSome := by
      unfold avgLossCol
      refine (rollingMean_defined_iff _ _ ?_ i
        (by rw [length_mapCol, length_diffCol]; exact hin)).mpr hiL
      intro v hv
      obtain ⟨u, _, rfl⟩ := List.mem_map.mp hv
      exact lossCell_isSome u
    obtain ⟨g, hg⟩ := Option.isSome_iff_exists.mp hGdef
    obtain ⟨l, hl⟩ := Option.isSome_iff_exists.mp hLdef
    rw [hg, hl,
      show rsiCell (some g) (some l) =
        if l = 0 then (if g = 0 then none else some 100)
        else some (100 - 100 / (1 + g / l)) from rfl]
    by_cases hlz : l = 0
    · by_cases hgz : g = 0
      · simp [hlz, hgz, hiL]
      · simp [hlz, hgz, hiL]
    · simp [hlz, hiL]
  · have hGnone : cell (avgGainCol L (cs.map some)) i = none := by
      unfold avgGainCol
      rw [cell_rollingMean _ _ i (by rw [length_mapCol, length_diffCol]; exact hin),
        if_neg hiL]
    rw [hGnone,
      show rsiCell none (cell (avgLossCol L (cs.map some)) i) = none from by
        cases cell (avgLossCol L (cs.map some)) i <;> rfl]
    simp [hiL]

/-- C2 (amended): for every windowed indicator with lookback `L` and input of
total (non-`NaN`) bar columns, the value at every index `< L-1` is undefined
(hence a series shorter than `L` is undefined everywhere, and undefined
positions are a sentinel, never `0` or a partial-window estimate), and from
index `L-1` on: the moving average, Bollinger mid and ATR values are always
defined; the Bollinger up/down bands are defined iff additionally `2 ≤ L`
(pandas sample std over a single observation is `NaN`); and the RSI value is
defined iff additionally the window is not flat — when every close delta in
the window is zero (or shifted out), both the average gain and the average
loss are `0` and the RSI is undefined (`0/0` is `NaN`). -/
theorem warmup_definedness (L k : ℕ) (cs hs ls : List ℝ) (i : ℕ)
    (hL : 1 ≤ L) (hi : i < cs.length)
    (hlenh : hs.length = cs.length) (hlenl : ls.length = cs.length) :
    ((cell (rollingMean L (cs.map some)) i).isSome ↔ L ≤ i + 1) ∧
    ((cell (rsiCol L (cs.map some)) i).isSome ↔
      (L ≤ i + 1 ∧ ¬(cell (avgGainCol L (cs.map some)) i = some 0 ∧
                     cell (avgLossCol L (cs.map some)) i = some 0))) ∧
    ((cell (avgGainCol L (cs.map some)) i = some 0 ∧
      cell (avgLossCol L (cs.map some)) i = some 0) ↔
      (L ≤ i + 1 ∧ ∀ j, i + 1 - L ≤ j → j ≤ i → j ≠ 0 →
        cs.getD j 0 = cs.getD (j - 1) 0)) ∧
    ((cell (bollMid L (cs.map some)) i).isSome ↔ L ≤ i + 1) ∧
    ((cell (bollUp L k (cs.map some)) i).isSome ↔ (L ≤ i + 1 ∧ 2 ≤ L)) ∧
    ((cell (bollDown L k (cs.map some)) i).isSome ↔ (L ≤ i + 1 ∧ 2 ≤ L)) ∧
    ((cell (atrCol L (hs.map some) (ls.map some) (cs.map some)) i).isSome ↔ L ≤ i + 1) := by
  have hin : i < (cs.map some).length := by rw [List.length_map]; exact hi
  have htotal : ∀ v ∈ cs.map some, v.isSome := by
    intro v hv
    obtain ⟨x, _, rfl⟩ := List.mem_map.mp hv
    rfl
  have hma := rollingMean_defined_iff L (cs.map some) htotal i hin
  have hstd := rollingStd_defined_iff L (cs.map some) htotal i hin
  have hmid : (cell (bollMid L (cs.map some)) i).isSome ↔ L ≤ i + 1 := hma
  refine ⟨hma, rsi_defined_iff L cs i hi, rsi_flat_iff L cs i hL hi, hmid, ?_, ?_, ?_⟩
  · unfold bollUp
    rw [cell_zip2 _ _ _ i (by unfold bollMid; rw [length_rollingMean]; exact hin),
      cell_mapCol _ _ _ (by unfold bollStd; rw [length_rollingStd]; exact hin),
      oadd_isSome, kmul_isSome]
    unfold bollMid bollStd
    rw [hma, hstd]
    constructor
    · rintro ⟨h1, h2, h3⟩
      exact ⟨h1, h3⟩
    · rintro ⟨h1, h2⟩
      exact ⟨h1, h1, h2⟩
  · unfold bollDown
    rw [cell_zip2 _ _ _ i (by unfold bollMid; rw [length_rollingMean]; exact hin),
      cell_mapCol _ _ _ (by unfold bollStd; rw [length_rollingStd]; exact hin),
      osub_isSome, kmul_isSome]
    unfold bollMid bollStd
    rw [hma, hstd]
    constructor
    · rintro ⟨h1, h2, h3⟩
      exact ⟨h1, h3⟩
    · rintro ⟨h1, h2⟩
      exact ⟨h1, h1, h2⟩
  · unfold atrCol
    refine rollingMean_defined_iff L _ ?_ i ?_
    · exact trueRangeCol_total hs ls cs (by omega)
    · rw [length_trueRangeCol, List.length_map]
      omega

/-- C2 counterexample: constant closes `[1, 1, 1]` with RSI window 3 — index 2
is `≥ L - 1 = 2`, yet the RSI value there is undefined (`NaN`): every delta in
the window is 0 or shifted out, so `rs = 0/0`.  The claim that every windowed
indicator is defined at every index `≥ L-1` is therefore false. -/
theorem warmup_rsi_flat_counterexample :
    3 - 1 ≤ 2 ∧
    2 < ([(1 : ℝ), 1, 1].map some).length ∧
    cell (rsiCol 3 ([(1 : ℝ), 1, 1].map some)) 2 = none := by
  refine ⟨by norm_num, by norm_num, ?_⟩
  norm_num [rsiCol, zip2, avgGainCol, avgLossCol, rollingMean, mapCol, diffCol, win, oseq,
    cell, gainCell, lossCell, rsiCell, osub, List.range_succ]

/-- Witness for C2: window 2, closes `[1, 2, 3]` (with highs `[2, 3, 4]` and
lows `[0, 1, 2]` for ATR), index 1. -/
theorem warmup_definedness_witness :
    1 ≤ 2 ∧ 1 < ([(1 : ℝ), 2, 3] : List ℝ).length ∧
    ((cell (rollingMean 2 (([(1 : ℝ), 2, 3] : List ℝ).map some)) 1).isSome ↔ 2 ≤ 1 + 1) := by
  refine ⟨by norm_num, by norm_num, ?_⟩
  exact (warmup_definedness 2 2 [(1 : ℝ), 2, 3] [2, 3, 4] [0, 1, 2] 1
    (by norm_num) (by norm_num) rfl rfl).1

/-! ## C10: indicator operations preserve the bar columns -/

/-- The six input bar columns of the engine's frames. -/
def barCols : List String := ["datetime", "open", "high", "low", "close", "volume"]

lemma getCol_setCol (df : DF) (k n : String) (c : Col) :
    getCol (setCol df k c) n = if k = n then some c else getCol df n := by
  induction df with
  | nil =>
      simp only [setCol, getCol]
  | cons hd tl ih =>
      obtain ⟨k', v⟩ := hd
      simp only [setCol]
      by_cases hk : k' = k
      · rw [if_pos hk]
        subst hk
        simp only [getCol]
        split_ifs <;> rfl
      · rw [if_neg hk]
        simp only [getCol]
        rw [ih]
        by_cases hn : k' = n
        · rw [if_pos hn, if_neg (fun h => hk (by rw [hn, h])), if_pos hn]
        · rw [if_neg hn, if_neg hn]

lemma ne_of_head (pre s name : String) (c : Char)
    (hp : pre.data.head? = some c) (hn : name.data.head? ≠ some c) : pre ++ s ≠ name := by
  intro h
  apply hn
  rw [← h, String.data_append,
    List.head?_append_of_ne_nil _ (by intro hnil; rw [hnil] at hp; exact absurd hp (by simp)),
    hp]

lemma add_ma_preserve (df : DF) (ps : List ℕ) (name : String)
    (h : ∀ s : String, ("ma" ++ s) ≠ name) :
    getCol (add_ma df ps) name = getCol df name := by
  induction ps generalizing df with
  | nil => rfl
  | cons p t ih =>
      unfold add_ma
      rw [List.foldl_cons]
      have := ih (setCol df ("ma" ++ toString p) (rollingMean p (col df "close")))
      unfold add_ma at this
      rw [this, getCol_setCol, if_neg (h (toString p))]

lemma add_ema_preserve (df : DF) (ps : List ℕ) (name : String)
    (h : ∀ s : String, ("ema" ++ s) ≠ name) :
    getCol (add_ema df ps) name = getCol df name := by
  induction ps generalizing df with
  | nil => rfl
  | cons p t ih =>
      unfold add_ema
      rw [List.foldl_cons]
      have := ih (setCol df ("ema" ++ toString p) (ewmSpan p (col df "close")))
      unfold add_ema at this
      rw [this, getCol_setCol, if_neg (h (toString p))]

lemma add_rsi_preserve (df : DF) (ps : List ℕ) (name : String)
    (h : ∀ s : String, ("rsi" ++ s) ≠ name) :
    getCol (add_rsi df ps) name = getCol df name := by
  induction ps generalizing df with
  | nil => rfl
  | cons p t ih =>
      unfold add_rsi
      rw [List.foldl_cons]
      have := ih (setCol df ("rsi" ++ toString p) (rsiCol p (col df "close")))
      unfold add_rsi at this
      rw [this, getCol_setCol, if_neg (h (toString p))]

lemma ops_preserve_aux (name : String)
    (hma : ∀ s : String, ("ma" ++ s) ≠ name)
    (hema : ∀ s : String, ("ema" ++ s) ≠ name)
    (hrsi : ∀ s : String, ("rsi" ++ s) ≠ name)
    (hatr : ∀ s : String, ("atr" ++ s) ≠ name)
    (h1 : "macd_dif" ≠ name) (h2 : "macd_dea" ≠ name) (h3 : "macd_hist" ≠ name)
    (h4 : "kdj_k" ≠ name) (h5 : "kdj_d" ≠ name) (h6 : "kdj_j" ≠ name)
    (h7 : "boll_mid" ≠ name) (h8 : "boll_std" ≠ name) (h9 : "boll_up" ≠ name)
    (h10 : "boll_down" ≠ name) (h11 : "ma_diff" ≠ name) (h12 : "cross_signal" ≠ name)
    (df : DF) (periods : List ℕ) (fast slow signal n m1 m2 period std p : ℕ) :
    getCol (add_ma df periods) name = getCol df name ∧
    getCol (add_ema df periods) name = getCol df name ∧
    getCol (add_macd df fast slow signal) name = getCol df name ∧
    getCol (add_kdj df n m1 m2) name = getCol df name ∧
    getCol (add_rsi df periods) name = getCol df name ∧
    getCol (add_boll df period std) name = getCol df name ∧
    getCol (add_atr df p) name = getCol df name ∧
    getCol (detect_ma_cross df fast slow) name = getCol df name ∧
    getCol (calculate_all df) name = getCol df name := by
  have hmacd : ∀ d f' s' g', getCol (add_macd d f' s' g') name = getCol d name := by
    intro d f' s' g'
    unfold add_macd
    rw [getCol_setCol, if_neg h3, getCol_setCol, if_neg h2, getCol_setCol, if_neg h1]
  have hkdj : ∀ d a b c, getCol (add_kdj d a b c) name = getCol d name := by
    intro d a b c
    unfold add_kdj
    rw [getCol_setCol, if_neg h6, getCol_setCol, if_neg h5, getCol_setCol, if_neg h4]
  have hboll : ∀ d a b, getCol (add_boll d a b) name = getCol d name := by
    intro d a b
    unfold add_boll
    rw [getCol_setCol, if_neg h10, getCol_setCol, if_neg h9, getCol_setCol, if_neg h8,
      getCol_setCol, if_neg h7]
  have hatr' : ∀ d a, getCol (add_atr d a) name = getCol d name := by
    intro d a
    unfold add_atr
    rw [getCol_setCol, if_neg (hatr (toString a))]
  have hcross : ∀ d a b, getCol (detect_ma_cross d a b) name = getCol d name := by
    intro d a b
    unfold detect_ma_cross
    rw [getCol_setCol, if_neg h12, getCol_setCol, if_neg h11]
  refine ⟨add_ma_preserve df periods name hma, add_ema_preserve df periods name hema,
    hmacd df fast slow signal, hkdj df n m1 m2, add_rsi_preserve df periods name hrsi,
    hboll df period std, hatr' df p, hcross df fast slow, ?_⟩
  unfold calculate_all
  rw [hatr', hboll, add_rsi_preserve _ _ _ hrsi, hkdj, hmacd,
    add_ema_preserve _ _ _ hema, add_ma_preserve _ _ _ hma]

/-- C10: every `IndicatorEngine` operation leaves the six input bar columns
(`datetime`/`open`/`high`/`low`/`close`/`volume`) of the frame unchanged:
each operation only writes indicator columns (`ma{p}`, `ema{p}`, `macd_*`,
`kdj_*`, `rsi{p}`, `boll_*`, `atr{p}`, `ma_diff`, `cross_signal`), whose names
never collide with a bar column. -/
theorem indicator_ops_preserve_bar_columns (name : String) (hname : name ∈ barCols)
    (df : DF) (periods : List ℕ) (fast slow signal n m1 m2 period std p : ℕ) :
    getCol (add_ma df periods) name = getCol df name ∧
    getCol (add_ema df periods) name = getCol df name ∧
    getCol (add_macd df fast slow signal) name = getCol df name ∧
    getCol (add_kdj df n m1 m2) name = getCol df name ∧
    getCol (add_rsi df periods) name = getCol df name ∧
    getCol (add_boll df period std) name = getCol df name ∧
    getCol (add_atr df p) name = getCol df name ∧
    getCol (detect_ma_cross df fast slow) name = getCol df name ∧
    getCol (calculate_all df) name = getCol df name := by
  fin_cases hname <;>
    exact ops_preserve_aux _
      (fun s => ne_of_head _ s _ 'm' (by decide) (by decide))
      (fun s => ne_of_head _ s _ 'e' (by decide) (by decide))
      (fun s => ne_of_head _ s _ 'r' (by decide) (by decide))
      (fun s => ne_of_head _ s _ 'a' (by decide) (by decide))
      (by decide) (by decide) (by decide) (by decide) (by decide) (by decide)
      (by decide) (by decide) (by decide) (by decide) (by decide) (by decide)
      df periods fast slow signal n m1 m2 period std p

/-- Witness for C10: the `close` column of a one-column frame survives
`calculate_all`. -/
theorem indicator_ops_preserve_bar_columns_witness :
    "close" ∈ barCols ∧
    getCol (calculate_all [("close", [some (1 : ℝ)])]) "close" =
      getCol [("close", [some (1 : ℝ)])] "close" := by
  refine ⟨by decide, ?_⟩
  exact (indicator_ops_preserve_bar_columns "close" (by decide)
    [("close", [some (1 : ℝ)])] [] 0 0 0 0 0 0 0 0 0).2.2.2.2.2.2.2.2
